import Mathlib

/-!
# Verification of the gocsv encoder/decoder (src/csv.go)

Shallow embedding of the CSV reader and writer from `src/csv.go`.

Conventions of the embedding:
* A byte is a `Nat` (Go `byte` values are `0..255`; no arithmetic is done on
  them, only comparisons, so no modular reduction is needed).
* The `io.ByteReader` consumed by the `Reader` is a `List Nat` of the remaining
  bytes, threaded explicitly through every parsing function.  Go's
  `ReadByte` on an exhausted reader yields `(0, io.EOF)`; in the embedding an
  empty list plays that role.  A `strings.Reader`/`bufio.Reader` over a byte
  buffer can fail only with `io.EOF`, so the error type below has no
  "underlying I/O failure" constructor.
* Go's multiple-return convention `(value, err)` is kept: each function
  returns its value components together with an `Option Err` (with
  `none` = Go `nil` error) and the remaining input.
-/

/-- Errors of the reader, mirroring the Go error values that `csv.go` can
produce: `io.EOF`, `io.ErrUnexpectedEOF`, and the
`errors.New ("expected , got " ++ b)` value built in `ReadRow`. -/
inductive Err where
  | eof
  | unexpectedEof
  | expected (b : Nat)
deriving DecidableEq, Repr

/-- Model of `Config` from src/csv.go lines 10-16. -/
structure Config where
  TrimSpaces : Bool
  FieldDelim : Nat
deriving DecidableEq, Repr

/-- Model of `DefaultConfig` from src/csv.go lines 20-22: no trimming, delimiter `','` (byte 44). -/
def DefaultConfig : Config := { TrimSpaces := false, FieldDelim := 44 }

/-- The trailing-whitespace loop inside `parseQuoted` (src/csv.go lines 52-55):
`for b == ' ' && e == nil { b, e = r.br.ReadByte() }`.  Takes the current byte
and the remaining input and returns the first non-space byte (or `0` once the
input is exhausted, as Go's `ReadByte` then yields byte `0`) together with the
input remaining after it. -/
def eatSpaces (b : Nat) (l : List Nat) : Nat × List Nat :=
  if b = 32 then
    match l with
    | [] => (0, [])
    | c :: rest => eatSpaces c rest
  else (b, l)

/-- Model of `parseQuoted` from src/csv.go lines 35-64, entered after the opening `'"'`
has been consumed.  The second argument is the scratch buffer `tmpbuf`
(already reset by `parseCell`).  Result components: field text, terminator
byte, error, remaining input.  On end-of-input before a closing quote Go turns
`io.EOF` into `io.ErrUnexpectedEOF` and returns `("", 0, e)`; on a closing
quote that is the last byte of the input, the inner `ReadByte` yields
`(0, io.EOF)` and the field is returned with terminator byte `0`. -/
def parseQuoted (input : List Nat) (acc : List Nat) : List Nat × Nat × Option Err × List Nat :=
  match input with
  | [] => ([], 0, some Err.unexpectedEof, [])
  | b :: rest =>
    if b = 34 then
      match rest with
      | [] => (acc, 0, none, [])
      | c :: rest2 =>
        if c = 34 then
          parseQuoted rest2 (acc ++ [34])
        else
          let p := eatSpaces c rest2
          (acc, p.1, none, p.2)
    else
      parseQuoted rest (acc ++ [b])

/-- The unquoted-mode loop of `parseCell` (src/csv.go lines 81-102).
Arguments: current byte `b`, remaining input, scratch buffer `acc`, the
`trailing_spaces` counter `ts`, and the `last` byte variable.  On reaching the
terminator (newline or field delimiter) or end-of-input, the final
`trailing_spaces` bytes are sliced off the buffer; the lone-`'\r'`-before-`'\n'`
suppression of lines 98-100 applies only in the terminator case, since at
end-of-input Go's `b` is `0`, never `'\n'`.  (Go's slice `s[0:len(s)-ts]`
cannot overrun: `ts` never exceeds the number of bytes written.) -/
def parseUnquoted (cfg : Config) (b : Nat) (input : List Nat) (acc : List Nat)
    (ts last : Nat) : List Nat × Nat × Option Err × List Nat :=
  if b = 10 ∨ b = cfg.FieldDelim then
    let ts2 := if last = 13 ∧ b = 10 ∧ ts = 0 then 1 else ts
    ((acc.take (acc.length - ts2)), b, none, input)
  else
    let ts2 := if cfg.TrimSpaces then (if b = 32 ∨ b = 13 then ts + 1 else 0) else ts
    match input with
    | [] =>
      let acc2 := acc ++ [b]
      ((acc2.take (acc2.length - ts2)), 0, none, [])
    | c :: rest => parseUnquoted cfg c rest (acc ++ [b]) ts2 b

/-- Model of `parseCell` from src/csv.go lines 66-103.  Reads one byte (after
discarding leading spaces when `TrimSpaces` is set); end-of-input there is the
clean `io.EOF` signal; a `'"'` enters quoted mode, anything else the unquoted
loop with fresh buffer, `trailing_spaces = 0` and zero-valued `last`. -/
def parseCell (cfg : Config) (input : List Nat) : List Nat × Nat × Option Err × List Nat :=
  match (if cfg.TrimSpaces then input.dropWhile (fun b => b = 32) else input) with
  | [] => ([], 0, some Err.eof, [])
  | b :: rest =>
    if b = 34 then parseQuoted rest []
    else parseUnquoted cfg b rest [] 0 0

theorem eatSpaces_rest_le (b : Nat) (l : List Nat) : (eatSpaces b l).2.length ≤ l.length := by
  induction l generalizing b with
  | nil =>
    unfold eatSpaces
    split
    · simp
    · simp
  | cons c rest ih =>
    unfold eatSpaces
    split
    · exact le_trans (ih c) (by simp)
    · simp

theorem parseQuoted_rest_le (l acc : List Nat) :
    (parseQuoted l acc).2.2.2.length ≤ l.length := by
  induction l, acc using parseQuoted.induct with
  | case1 acc => simp [parseQuoted]
  | case2 acc => simp [parseQuoted]
  | case3 acc rest ih =>
    simp only [parseQuoted, List.length_cons, if_true, ite_true, reduceIte]
    simp only [List.length_cons] at ih
    omega
  | case4 acc c rest hc =>
    have := eatSpaces_rest_le c rest
    simp [parseQuoted, hc]
    omega
  | case5 acc c rest hc ih =>
    rw [parseQuoted.eq_def]
    simp only [if_neg hc]
    simp only [List.length_cons] at ih ⊢
    omega

theorem parseUnquoted_rest_le (cfg : Config) (b : Nat) (l acc : List Nat) (ts last : Nat) :
    (parseUnquoted cfg b l acc ts last).2.2.2.length ≤ l.length := by
  induction l generalizing b acc ts last with
  | nil =>
    unfold parseUnquoted
    split
    · simp
    · simp
  | cons c rest ih =>
    unfold parseUnquoted
    split
    · simp
    · have := ih c (acc ++ [b]) (if cfg.TrimSpaces then (if b = 32 ∨ b = 13 then ts + 1 else 0) else ts) b
      simp only [List.length_cons]
      omega

theorem parseCell_rest_lt (cfg : Config) (input : List Nat) (c : List Nat) (b : Nat)
    (rest : List Nat) (h : parseCell cfg input = (c, b, none, rest)) :
    rest.length < input.length := by
  unfold parseCell at h
  have hlen : (if cfg.TrimSpaces then input.dropWhile (fun b => b = 32) else input).length
      ≤ input.length := by
    split
    · exact (List.dropWhile_sublist _).length_le
    · exact le_refl _
  split at h
  · simp at h
  · rename_i x rr heq
    rw [heq] at hlen
    simp only [List.length_cons] at hlen
    split at h
    · have h2 := parseQuoted_rest_le rr []
      rw [h] at h2
      simp only at h2
      omega
    · have h2 := parseUnquoted_rest_le cfg x rr [] 0 0
      rw [h] at h2
      simp only at h2
      omega

/-- Model of `ReadRow` from src/csv.go lines 106-136, with the accumulated `result`
slice as an explicit argument.  Faithful points: when `parseCell` fails with
`io.EOF` and the row already has fields, the empty cell is appended and the
row is returned *together with* the `io.EOF` error; a terminator byte `0`
(the end-of-input sentinel) completes the row; a `'\r'` terminator makes
`ReadRow` consume one more byte (an immediate read failure is returned as-is
with a nil row) and then the delimiter / `'\n'` dispatch runs on that byte.
The dispatch is written out in both branches of the `'\r'` test exactly as the
single Go check chain executes after the optional extra read. -/
def readRowAux (cfg : Config) (input : List Nat) (result : List (List Nat)) :
    List (List Nat) × Option Err × List Nat :=
  match h : parseCell cfg input with
  | (c, _, some e, rest) =>
    if e = Err.eof ∧ result ≠ [] then (result ++ [c], some Err.eof, rest)
    else (result, some e, rest)
  | (c, b, none, rest) =>
    let result2 := result ++ [c]
    if b = 0 then (result2, none, rest)
    else if b = 13 then
      match rest with
      | [] => ([], some Err.eof, [])
      | b2 :: rest2 =>
        if b2 = cfg.FieldDelim then readRowAux cfg rest2 result2
        else if b2 = 10 then (result2, none, rest2)
        else ([], some (Err.expected b2), rest2)
    else
      if b = cfg.FieldDelim then readRowAux cfg rest result2
      else if b = 10 then (result2, none, rest)
      else ([], some (Err.expected b), rest)
termination_by input.length
decreasing_by
  all_goals
    have h1 := parseCell_rest_lt cfg input _ _ _ h
    first
    | omega
    | (simp only [List.length_cons] at h1; omega)

/-- The method `ReadRow` proper: Go starts with a nil `result` slice. -/
def ReadRow (cfg : Config) (input : List Nat) : List (List Nat) × Option Err × List Nat :=
  readRowAux cfg input []


theorem readRowAux_err (cfg : Config) (input : List Nat) (result : List (List Nat))
    (c : List Nat) (b : Nat) (e : Err) (rest : List Nat)
    (hpc : parseCell cfg input = (c, b, some e, rest)) :
    readRowAux cfg input result =
      if e = Err.eof ∧ result ≠ [] then (result ++ [c], some Err.eof, rest)
      else (result, some e, rest) := by
  rw [readRowAux.eq_def]
  split
  · rename_i c2 b2 e2 rest2 heq
    rw [hpc] at heq
    injection heq with h1 h2
    injection h2 with h2 h3
    injection h3 with h3 h4
    injection h3 with h3
    subst h1 h3 h4
    rfl
  · rename_i c2 b2 rest2 heq
    rw [hpc] at heq
    injection heq with h1 h2
    injection h2 with h2 h3
    injection h3 with h3 h4
    exact Option.noConfusion h3

theorem readRowAux_sentinel (cfg : Config) (input : List Nat) (result : List (List Nat))
    (c : List Nat) (rest : List Nat)
    (hpc : parseCell cfg input = (c, 0, none, rest)) :
    readRowAux cfg input result = (result ++ [c], none, rest) := by
  rw [readRowAux.eq_def]
  split
  · rename_i c2 b2 e2 rest2 heq
    rw [hpc] at heq
    injection heq with h1 h2
    injection h2 with h2 h3
    injection h3 with h3 h4
    exact Option.noConfusion h3
  · rename_i c2 b2 rest2 heq
    rw [hpc] at heq
    injection heq with h1 h2
    injection h2 with h2 h3
    injection h3 with h3 h4
    subst h1 h4
    simp only [← h2]
    rfl

theorem readRowAux_cr_nil (cfg : Config) (input : List Nat) (result : List (List Nat))
    (c : List Nat) (hpc : parseCell cfg input = (c, 13, none, [])) :
    readRowAux cfg input result = ([], some Err.eof, []) := by
  rw [readRowAux.eq_def]
  split
  · rename_i c2 b2 e2 rest2 heq
    rw [hpc] at heq
    injection heq with h1 h2
    injection h2 with h2 h3
    injection h3 with h3 h4
    exact Option.noConfusion h3
  · rename_i c2 b2 rest2 heq
    rw [hpc] at heq
    injection heq with h1 h2
    injection h2 with h2 h3
    injection h3 with h3 h4
    subst h1 h4
    simp only [← h2]
    rfl

theorem readRowAux_cr_cons (cfg : Config) (input : List Nat) (result : List (List Nat))
    (c : List Nat) (b2 : Nat) (rest2 : List Nat)
    (hpc : parseCell cfg input = (c, 13, none, b2 :: rest2)) :
    readRowAux cfg input result =
      (if b2 = cfg.FieldDelim then readRowAux cfg rest2 (result ++ [c])
       else if b2 = 10 then (result ++ [c], none, rest2)
       else ([], some (Err.expected b2), rest2)) := by
  rw [readRowAux.eq_def]
  split
  · rename_i c2 b3 e2 rest3 heq
    rw [hpc] at heq
    injection heq with h1 h2
    injection h2 with h2 h3
    injection h3 with h3 h4
    exact Option.noConfusion h3
  · rename_i c2 b3 rest3 heq
    rw [hpc] at heq
    injection heq with h1 h2
    injection h2 with h2 h3
    injection h3 with h3 h4
    subst h1 h4
    simp only [← h2]
    rfl

theorem readRowAux_term (cfg : Config) (input : List Nat) (result : List (List Nat))
    (c : List Nat) (b : Nat) (rest : List Nat)
    (hpc : parseCell cfg input = (c, b, none, rest)) (hb0 : b ≠ 0) (hb13 : b ≠ 13) :
    readRowAux cfg input result =
      (if b = cfg.FieldDelim then readRowAux cfg rest (result ++ [c])
       else if b = 10 then (result ++ [c], none, rest)
       else ([], some (Err.expected b), rest)) := by
  rw [readRowAux.eq_def]
  split
  · rename_i c2 b3 e2 rest3 heq
    rw [hpc] at heq
    injection heq with h1 h2
    injection h2 with h2 h3
    injection h3 with h3 h4
    exact Option.noConfusion h3
  · rename_i c2 b3 rest3 heq
    rw [hpc] at heq
    injection heq with h1 h2
    injection h2 with h2 h3
    injection h3 with h3 h4
    subst h1 h4
    subst h2
    simp only [if_neg hb0, if_neg hb13]

theorem parseCell_nil (cfg : Config) : parseCell cfg [] = ([], 0, some Err.eof, []) := by
  unfold parseCell
  split
  · rfl
  · rename_i x rr heq
    split at heq <;> simp_all

theorem readRowAux_rest_lt (cfg : Config) :
    ∀ (n : Nat) (input : List Nat) (result row : List (List Nat)) (rest : List Nat),
      input.length ≤ n → readRowAux cfg input result = (row, none, rest) →
      rest.length < input.length := by
  intro n
  induction n with
  | zero =>
    intro input result row rest hlen h
    have hnil : input = [] := List.eq_nil_of_length_eq_zero (Nat.le_zero.mp hlen)
    subst hnil
    rw [readRowAux_err cfg [] result _ _ _ _ (parseCell_nil cfg)] at h
    split at h <;> simp at h
  | succ n ih =>
    intro input result row rest hlen h
    rcases hpc : parseCell cfg input with ⟨c, b, err, rest0⟩
    cases err with
    | some e =>
      rw [readRowAux_err cfg input result _ _ _ _ hpc] at h
      split at h <;> simp at h
    | none =>
      have hlt := parseCell_rest_lt cfg input c b rest0 hpc
      by_cases hb0 : b = 0
      · subst hb0
        rw [readRowAux_sentinel cfg input result _ _ hpc] at h
        simp only [Prod.mk.injEq] at h
        obtain ⟨-, -, h3⟩ := h
        subst h3
        omega
      · by_cases hb13 : b = 13
        · subst hb13
          cases rest0 with
          | nil =>
            rw [readRowAux_cr_nil cfg input result _ hpc] at h
            simp at h
          | cons b2 rest2 =>
            rw [readRowAux_cr_cons cfg input result _ _ _ hpc] at h
            simp only [List.length_cons] at hlt
            split at h
            · have := ih rest2 (result ++ [c]) row rest (by omega) h
              omega
            · split at h
              · simp only [Prod.mk.injEq] at h
                obtain ⟨-, -, h3⟩ := h
                subst h3
                omega
              · simp at h
        · rw [readRowAux_term cfg input result _ _ _ hpc hb0 hb13] at h
          split at h
          · have := ih rest0 (result ++ [c]) row rest (by omega) h
            omega
          · split at h
            · simp only [Prod.mk.injEq] at h
              obtain ⟨-, -, h3⟩ := h
              subst h3
              omega
            · simp at h

/-- The `ReadAll` method from src/csv.go lines 138-151 (on which the
top-level convenience `ReadAll` of lines 155-157 is a thin wrapper with the
default configuration): loop `ReadRow`, collecting rows; `io.EOF` ends the
loop returning the rows collected so far, any other error discards them. -/
def readAllAux (cfg : Config) (input : List Nat) (rows : List (List (List Nat))) :
    List (List (List Nat)) × Option Err :=
  match h : ReadRow cfg input with
  | (_, some e, _) => if e = Err.eof then (rows, none) else ([], some e)
  | (row, none, rest) => readAllAux cfg rest (rows ++ [row])
termination_by input.length
decreasing_by
  exact readRowAux_rest_lt cfg input.length input [] row rest (le_refl _) h

/-- The method `ReadAll`: Go starts from an empty `rows` slice. -/
def ReadAll (cfg : Config) (input : List Nat) : List (List (List Nat)) × Option Err :=
  readAllAux cfg input []

theorem readAllAux_err (cfg : Config) (input : List Nat) (rows : List (List (List Nat)))
    (row : List (List Nat)) (e : Err) (rest : List Nat)
    (hrr : ReadRow cfg input = (row, some e, rest)) :
    readAllAux cfg input rows = if e = Err.eof then (rows, none) else ([], some e) := by
  rw [readAllAux.eq_def]
  split
  · rename_i r2 e2 rest2 heq
    rw [hrr] at heq
    injection heq with h1 h2
    injection h2 with h2 h3
    injection h2 with h2
    subst h2
    rfl
  · rename_i r2 rest2 heq
    rw [hrr] at heq
    injection heq with h1 h2
    injection h2 with h2 h3
    exact Option.noConfusion h2

theorem readAllAux_ok (cfg : Config) (input : List Nat) (rows : List (List (List Nat)))
    (row : List (List Nat)) (rest : List Nat)
    (hrr : ReadRow cfg input = (row, none, rest)) :
    readAllAux cfg input rows = readAllAux cfg rest (rows ++ [row]) := by
  rw [readAllAux.eq_def]
  split
  · rename_i r2 e2 rest2 heq
    rw [hrr] at heq
    injection heq with h1 h2
    injection h2 with h2 h3
    exact Option.noConfusion h2
  · rename_i r2 rest2 heq
    rw [hrr] at heq
    injection heq with h1 h2
    injection h2 with h2 h3
    subst h1
    subst h3
    rfl

/-- Go's `for _, c := range s` iterates over UTF-8-decoded runes, not bytes.
`decodeRune1` models one step of that iteration (the semantics of
`unicode/utf8.DecodeRuneInString` on arbitrary, possibly invalid, bytes):
given the first byte and the bytes after it, it returns the decoded rune and
the input remaining after the whole encoding.  ASCII bytes decode to
themselves; an invalid or incomplete encoding yields the replacement rune
`0xFFFD` and advances a single byte; 2-, 3- and 4-byte sequences need their
leading byte in `C2..DF` / `E0..EF` / `F0..F4` and their first continuation
byte inside the range given by `b1lo`/`b1hi` (Go's `acceptRanges` table, which
excludes overlong encodings and surrogates), later continuation bytes in
`80..BF`. -/
def b1lo (b0 : Nat) : Nat :=
  if b0 = 0xE0 then 0xA0 else if b0 = 0xF0 then 0x90 else 0x80

/-- Upper end (exclusive) of the accepted range for the first continuation
byte, following Go's `acceptRanges`: `ED` caps at `A0` (no surrogates), `F4`
at `90` (no runes above `U+10FFFF`). -/
def b1hi (b0 : Nat) : Nat :=
  if b0 = 0xED then 0xA0 else if b0 = 0xF4 then 0x90 else 0xC0

def decodeRune1 (b0 : Nat) (rest : List Nat) : Nat × List Nat :=
  if b0 < 0x80 then (b0, rest)
  else if b0 < 0xC2 then (0xFFFD, rest)
  else if b0 < 0xE0 then
    match rest with
    | b1 :: r1 =>
      if b1lo b0 ≤ b1 ∧ b1 < b1hi b0 then ((b0 - 0xC0) * 0x40 + (b1 - 0x80), r1)
      else (0xFFFD, rest)
    | [] => (0xFFFD, rest)
  else if b0 < 0xF0 then
    match rest with
    | b1 :: b2 :: r2 =>
      if (b1lo b0 ≤ b1 ∧ b1 < b1hi b0) ∧ (0x80 ≤ b2 ∧ b2 < 0xC0) then
        ((b0 - 0xE0) * 0x1000 + (b1 - 0x80) * 0x40 + (b2 - 0x80), r2)
      else (0xFFFD, rest)
    | _ => (0xFFFD, rest)
  else if b0 < 0xF5 then
    match rest with
    | b1 :: b2 :: b3 :: r3 =>
      if (b1lo b0 ≤ b1 ∧ b1 < b1hi b0) ∧ (0x80 ≤ b2 ∧ b2 < 0xC0) ∧ (0x80 ≤ b3 ∧ b3 < 0xC0) then
        ((b0 - 0xF0) * 0x40000 + (b1 - 0x80) * 0x1000 + (b2 - 0x80) * 0x40 + (b3 - 0x80), r3)
      else (0xFFFD, rest)
    | _ => (0xFFFD, rest)
  else (0xFFFD, rest)

theorem decodeRune1_rest_le (b0 : Nat) (rest : List Nat) :
    (decodeRune1 b0 rest).2.length ≤ rest.length := by
  unfold decodeRune1
  repeat' split
  all_goals simp
  all_goals omega

/-- The rune loop of `needsQuotes` (src/csv.go lines 174-179):
`for _, c := range s { switch c { case '\n', '"', '\t', rune(delim): return
true } }`.  Note the comparison is between the decoded *rune* and
`rune(w.Config.FieldDelim)`. -/
def runeScan (cfg : Config) (s : List Nat) : Bool :=
  match s with
  | [] => false
  | b0 :: rest =>
    if (decodeRune1 b0 rest).1 = 10 ∨ (decodeRune1 b0 rest).1 = 34 ∨
       (decodeRune1 b0 rest).1 = 9 ∨ (decodeRune1 b0 rest).1 = cfg.FieldDelim then
      true
    else
      runeScan cfg (decodeRune1 b0 rest).2
termination_by s.length
decreasing_by
  simp only [List.length_cons]
  exact Nat.lt_succ_of_le (decodeRune1_rest_le _ _)

/-- Model of `needsQuotes` from src/csv.go lines 168-181: a non-empty field starting or
ending with a space byte is quoted, and so is any field whose rune iteration
meets a newline, double quote, tab, or the delimiter rune. -/
def needsQuotes (cfg : Config) (s : List Nat) : Bool :=
  (match s with
   | [] => false
   | b :: rest => b = 32 || (b :: rest).getLastD 0 = 32)
  || runeScan cfg s

/-- The byte loop of `writeCell` (src/csv.go lines 189-202): every `'"'` byte
is emitted as `""`, all other bytes verbatim. -/
def escapeQuotes : List Nat → List Nat
  | [] => []
  | b :: rest => (if b = 34 then [34, 34] else [b]) ++ escapeQuotes rest

/-- Model of `writeCell` from src/csv.go lines 183-211, as the list of bytes emitted
to the buffered writer (whose write errors cannot occur on a byte buffer). -/
def writeCell (cfg : Config) (cell : List Nat) : List Nat :=
  if needsQuotes cfg cell then 34 :: escapeQuotes cell ++ [34] else cell

/-- Model of `WriteRow` from src/csv.go lines 213-232: cells joined by the delimiter
byte (before every cell except the first), then a terminating `'\n'`. -/
def WriteRow (cfg : Config) : List (List Nat) → List Nat
  | [] => [10]
  | [cell] => writeCell cfg cell ++ [10]
  | cell :: rest => writeCell cfg cell ++ cfg.FieldDelim :: WriteRow cfg rest

/-- Model of `WriteAll` from src/csv.go lines 234-241 (the top-level convenience
`WriteAll` of lines 245-247 applies it with the default configuration). -/
def WriteAll (cfg : Config) : List (List (List Nat)) → List Nat
  | [] => []
  | row :: rest => WriteRow cfg row ++ WriteAll cfg rest

theorem b1lo_cases (b0 : Nat) :
    (b0 = 224 ∧ b1lo b0 = 160) ∨ (b0 = 240 ∧ b1lo b0 = 144) ∨
    ((b0 ≠ 224 ∧ b0 ≠ 240) ∧ b1lo b0 = 128) := by
  by_cases h1 : b0 = 224
  · left
    exact ⟨h1, by simp [b1lo, h1]⟩
  · by_cases h2 : b0 = 240
    · right; left
      exact ⟨h2, by simp [b1lo, h2]⟩
    · right; right
      exact ⟨⟨h1, h2⟩, by simp [b1lo, h1, h2]⟩

theorem decodeRune1_high (b0 : Nat) (hb : 128 ≤ b0) (rest : List Nat) (r : Nat)
    (rem : List Nat) (h : decodeRune1 b0 rest = (r, rem)) :
    128 ≤ r ∧ (rem = rest ∨
      (∃ b1 r1, rest = b1 :: r1 ∧ 128 ≤ b1 ∧ rem = r1) ∨
      (∃ b1 b2 r2, rest = b1 :: b2 :: r2 ∧ 128 ≤ b1 ∧ 128 ≤ b2 ∧ rem = r2) ∨
      (∃ b1 b2 b3 r3, rest = b1 :: b2 :: b3 :: r3 ∧ 128 ≤ b1 ∧ 128 ≤ b2 ∧ 128 ≤ b3 ∧
        rem = r3)) := by
  have hlo := b1lo_cases b0
  unfold decodeRune1 at h
  repeat' split at h
  all_goals injection h with h1 h2
  all_goals subst h1
  all_goals subst h2
  all_goals refine ⟨by omega, ?_⟩
  all_goals first
    | exact Or.inl rfl
    | exact Or.inr (Or.inl ⟨_, _, rfl, by omega, rfl⟩)
    | exact Or.inr (Or.inr (Or.inl ⟨_, _, _, rfl, by omega, by omega, rfl⟩))
    | exact Or.inr (Or.inr (Or.inr ⟨_, _, _, _, rfl, by omega, by omega, by omega, rfl⟩))

theorem runeScan_nil (cfg : Config) : runeScan cfg [] = false := by
  rw [runeScan.eq_def]

theorem runeScan_cons (cfg : Config) (b0 : Nat) (rest : List Nat) :
    runeScan cfg (b0 :: rest) =
      if (decodeRune1 b0 rest).1 = 10 ∨ (decodeRune1 b0 rest).1 = 34 ∨
         (decodeRune1 b0 rest).1 = 9 ∨ (decodeRune1 b0 rest).1 = cfg.FieldDelim then
        true
      else
        runeScan cfg (decodeRune1 b0 rest).2 := by
  rw [runeScan.eq_def]

theorem beq_chain_eq_decide (d : Nat) (b : Nat) :
    (b == 10 || b == 34 || b == 9 || b == d) =
      decide (b = 10 ∨ b = 34 ∨ b = 9 ∨ b = d) := by
  by_cases h1 : b = 10 <;> by_cases h2 : b = 34 <;> by_cases h3 : b = 9 <;>
    by_cases h4 : b = d <;> simp [h1, h2, h3, h4]

theorem runeScan_ascii (cfg : Config) (hd : cfg.FieldDelim < 128) :
    ∀ (n : Nat) (s : List Nat), s.length ≤ n →
      runeScan cfg s = s.any (fun b => b == 10 || b == 34 || b == 9 || b == cfg.FieldDelim) := by
  have hf : ∀ b : Nat, 128 ≤ b →
      (b == 10 || b == 34 || b == 9 || b == cfg.FieldDelim) = false := by
    intro b hb2
    rw [beq_chain_eq_decide]
    simp only [decide_eq_false_iff_not]
    omega
  intro n
  induction n with
  | zero =>
    intro s hlen
    have : s = [] := List.eq_nil_of_length_eq_zero (Nat.le_zero.mp hlen)
    subst this
    simp [runeScan_nil]
  | succ n ih =>
    intro s hlen
    match s with
    | [] => simp [runeScan_nil]
    | b0 :: rest =>
      simp only [List.length_cons] at hlen
      by_cases hb : b0 < 128
      · have hdec : decodeRune1 b0 rest = (b0, rest) := by
          unfold decodeRune1
          rw [if_pos hb]
        rw [runeScan_cons, hdec]
        simp only [List.any_cons]
        by_cases hcond : b0 = 10 ∨ b0 = 34 ∨ b0 = 9 ∨ b0 = cfg.FieldDelim
        · rw [if_pos hcond, beq_chain_eq_decide, decide_eq_true hcond]
          simp
        · rw [if_neg hcond, beq_chain_eq_decide, decide_eq_false hcond]
          rw [ih rest (by omega)]
          simp
      · rcases hdec : decodeRune1 b0 rest with ⟨r, rem⟩
        obtain ⟨hr, hcases⟩ := decodeRune1_high b0 (by omega) rest r rem hdec
        have hcond : ¬(r = 10 ∨ r = 34 ∨ r = 9 ∨ r = cfg.FieldDelim) := by omega
        rw [runeScan_cons, hdec]
        simp only
        rw [if_neg hcond]
        have hany : rest.any (fun b => b == 10 || b == 34 || b == 9 || b == cfg.FieldDelim)
            = rem.any (fun b => b == 10 || b == 34 || b == 9 || b == cfg.FieldDelim) := by
          rcases hcases with h | ⟨b1, r1, he, hb1, hr1⟩ |
            ⟨b1, b2, r2, he, hb1, hb2, hr2⟩ | ⟨b1, b2, b3, r3, he, hb1, hb2, hb3, hr3⟩
          · rw [h]
          · subst he hr1
            simp [List.any_cons, hf b1 hb1]
          · subst he hr2
            simp [List.any_cons, hf b1 hb1, hf b2 hb2]
          · subst he hr3
            simp [List.any_cons, hf b1 hb1, hf b2 hb2, hf b3 hb3]
        have hrem : rem.length ≤ n := by
          have := decodeRune1_rest_le b0 rest
          rw [hdec] at this
          simp only at this
          omega
        rw [ih rem hrem, List.any_cons, hf b0 (by omega), ← hany]
        simp

theorem needsQuotes_iff (cfg : Config) (hd : cfg.FieldDelim < 128) (s : List Nat) :
    needsQuotes cfg s = true ↔
      ((s ≠ [] ∧ (s.head? = some 32 ∨ s.getLast? = some 32)) ∨
        ∃ b ∈ s, b = 10 ∨ b = 34 ∨ b = 9 ∨ b = cfg.FieldDelim) := by
  unfold needsQuotes
  rw [runeScan_ascii cfg hd s.length s (le_refl _)]
  match s with
  | [] =>
    simp [runeScan_nil]
  | b :: rest =>
    have hlast : (b :: rest).getLast? = some ((b :: rest).getLastD 0) := rfl
    simp only [Bool.or_eq_true, List.any_eq_true, beq_chain_eq_decide,
      decide_eq_true_eq, List.head?_cons, hlast]
    simp only [Option.some.injEq, ne_eq, reduceCtorEq, not_false_eq_true, true_and]

theorem eatSpaces_no_space (b : Nat) (l : List Nat) (hb : b ≠ 32) :
    eatSpaces b l = (b, l) := by
  unfold eatSpaces
  rw [if_neg hb]

/-- Reading back a quoted cell: after the opening quote, the writer's
escaped payload followed by the closing quote and a terminator byte that is
neither `'"'` nor `' '` parses to exactly the payload. -/
theorem parseQuoted_escape (f : List Nat) :
    ∀ (acc : List Nat) (c : Nat) (rest : List Nat), c ≠ 34 → c ≠ 32 →
      parseQuoted (escapeQuotes f ++ 34 :: c :: rest) acc = (acc ++ f, c, none, rest) := by
  induction f with
  | nil =>
    intro acc c rest hc34 hc32
    simp only [escapeQuotes, List.nil_append]
    unfold parseQuoted
    rw [if_pos rfl]
    simp only [if_neg hc34]
    rw [eatSpaces_no_space c rest hc32]
    simp
  | cons x f2 ih =>
    intro acc c rest hc34 hc32
    by_cases hx : x = 34
    · subst hx
      simp only [escapeQuotes, if_pos rfl, List.cons_append, List.nil_append]
      show parseQuoted (34 :: 34 :: (escapeQuotes f2 ++ 34 :: c :: rest)) acc = _
      unfold parseQuoted
      rw [if_pos rfl]
      simp only [if_pos rfl]
      rw [ih (acc ++ [34]) c rest hc34 hc32]
      simp
    · simp only [escapeQuotes, if_neg hx, List.cons_append, List.nil_append]
      show parseQuoted (x :: (escapeQuotes f2 ++ 34 :: c :: rest)) acc = _
      unfold parseQuoted
      rw [if_neg hx]
      rw [ih (acc ++ [x]) c rest hc34 hc32]
      simp

/-- Reading back an unquoted cell with trimming off: a payload free of
newlines and delimiter bytes followed by a terminator (delimiter or newline)
is consumed whole; at the terminator the only adjustment is the
lone-`'\r'`-before-`'\n'` suppression. -/
theorem parseUnquoted_run (cfg : Config) (ht : cfg.TrimSpaces = false) :
    ∀ (f : List Nat) (b : Nat) (acc : List Nat) (ts last : Nat) (c : Nat) (rest : List Nat),
      (c = cfg.FieldDelim ∨ c = 10) →
      b ≠ 10 → b ≠ cfg.FieldDelim → (∀ y ∈ f, y ≠ 10 ∧ y ≠ cfg.FieldDelim) →
      parseUnquoted cfg b (f ++ c :: rest) acc ts last =
        ((acc ++ b :: f).take ((acc ++ b :: f).length -
          (if (b :: f).getLastD 0 = 13 ∧ c = 10 ∧ ts = 0 then 1 else ts)),
         c, none, rest) := by
  intro f
  induction f with
  | nil =>
    intro b acc ts last c rest hc hb10 hbD hf
    simp only [List.nil_append]
    unfold parseUnquoted
    rw [if_neg (by tauto)]
    rw [ht]
    simp only [Bool.false_eq_true, if_false]
    unfold parseUnquoted
    rw [if_pos (by tauto)]
    simp [List.getLastD]
  | cons y f2 ih =>
    intro b acc ts last c rest hc hb10 hbD hf
    simp only [List.cons_append]
    conv =>
      lhs
      unfold parseUnquoted
    rw [if_neg (by tauto), ht]
    simp only [Bool.false_eq_true, if_false]
    have hy := hf y (by simp)
    rw [ih y (acc ++ [b]) ts b c rest hc hy.1 hy.2
      (fun z hz => hf z (by simp [hz]))]
    have hgl : (b :: y :: f2).getLastD 0 = (y :: f2).getLastD 0 := by
      simp [List.getLastD, List.getLast?_cons_cons]
    rw [← hgl]
    simp [List.append_assoc]

/-- Cell-level round trip at the default configuration: a written cell
followed by a terminator byte (the delimiter or a newline) reads back
exactly, provided that a cell left unquoted by the writer does not end in
`'\r'` when the terminator is the newline (in that case the reader's CRLF
suppression would eat the final `'\r'`). -/
theorem parseCell_writeCell (f : List Nat) (c : Nat) (rest : List Nat)
    (hc : c = 44 ∨ c = 10)
    (hlast : c = 10 → needsQuotes DefaultConfig f = true ∨ f.getLast? ≠ some 13) :
    parseCell DefaultConfig (writeCell DefaultConfig f ++ c :: rest) = (f, c, none, rest) := by
  have hc34 : c ≠ 34 := by omega
  have hc32 : c ≠ 32 := by omega
  by_cases hq : needsQuotes DefaultConfig f = true
  · rw [writeCell, if_pos hq]
    have hshape : (34 :: escapeQuotes f ++ [34]) ++ c :: rest
        = 34 :: (escapeQuotes f ++ 34 :: c :: rest) := by simp
    rw [hshape]
    unfold parseCell
    simp only [DefaultConfig, Bool.false_eq_true, if_false, if_true]
    rw [parseQuoted_escape f [] c rest hc34 hc32]
    simp
  · rw [writeCell, if_neg hq]
    have hbytes : ∀ y ∈ f, ¬(y = 10 ∨ y = 34 ∨ y = 9 ∨ y = 44) := by
      intro y hy hy2
      exact hq ((needsQuotes_iff DefaultConfig (by norm_num [DefaultConfig]) f).mpr
        (Or.inr ⟨y, hy, by simpa [DefaultConfig] using hy2⟩))
    match f with
    | [] =>
      simp only [List.nil_append]
      unfold parseCell
      simp only [DefaultConfig, Bool.false_eq_true, if_false]
      rw [if_neg hc34]
      unfold parseUnquoted
      rw [if_pos (by simpa [DefaultConfig] using hc.symm)]
      simp
    | x :: f2 =>
      have hx := hbytes x (by simp)
      simp only [List.cons_append]
      unfold parseCell
      simp only [DefaultConfig, Bool.false_eq_true, if_false]
      rw [if_neg (by omega : ¬x = 34)]
      rw [parseUnquoted_run { TrimSpaces := false, FieldDelim := 44 } rfl
        f2 x [] 0 0 c rest ?hcs ?hx10 ?hx44 ?hfs]
      case hcs => simp only []; omega
      case hx10 => omega
      case hx44 => simp only []; omega
      case hfs =>
        intro z hz
        have := hbytes z (by simp [hz])
        simp only []
        omega
      have hts : (if (x :: f2).getLastD 0 = 13 ∧ c = 10 ∧ (0 : Nat) = 0
          then 1 else 0) = 0 := by
        rw [if_neg]
        rintro ⟨h13, h10, -⟩
        rcases hlast h10 with h | h
        · exact hq h
        · apply h
          have hgl : (x :: f2).getLast? = some ((x :: f2).getLastD 0) := rfl
          rw [hgl, h13]
      rw [hts]
      simp

/-- Row-level round trip at the default configuration. -/
theorem readRowAux_writeRow (row : List (List Nat)) (hne : row ≠ [])
    (hl : needsQuotes DefaultConfig (row.getLastD []) = true ∨
      (row.getLastD []).getLast? ≠ some 13) :
    ∀ (rest : List Nat) (acc : List (List Nat)),
      readRowAux DefaultConfig (WriteRow DefaultConfig row ++ rest) acc
        = (acc ++ row, none, rest) := by
  induction row with
  | nil => exact absurd rfl hne
  | cons f row2 ih =>
    intro rest acc
    match row2 with
    | [] =>
      have hpc : parseCell DefaultConfig (writeCell DefaultConfig f ++ 10 :: rest)
          = (f, 10, none, rest) := by
        apply parseCell_writeCell f 10 rest (Or.inr rfl)
        intro _
        simpa [List.getLastD] using hl
      have hwr : WriteRow DefaultConfig [f] ++ rest
          = writeCell DefaultConfig f ++ 10 :: rest := by
        simp [WriteRow]
      rw [hwr, readRowAux_term DefaultConfig _ acc f 10 rest hpc (by omega) (by omega)]
      have h44 : (10 : Nat) ≠ DefaultConfig.FieldDelim := by
        simp [DefaultConfig]
      rw [if_neg h44, if_pos rfl]
    | g :: row3 =>
      have hpc : parseCell DefaultConfig
          (writeCell DefaultConfig f ++ 44 :: (WriteRow DefaultConfig (g :: row3) ++ rest))
          = (f, 44, none, WriteRow DefaultConfig (g :: row3) ++ rest) := by
        apply parseCell_writeCell f 44 _ (Or.inl rfl)
        intro h10
        exact absurd h10 (by omega)
      have hwr : WriteRow DefaultConfig (f :: g :: row3) ++ rest
          = writeCell DefaultConfig f ++ 44 :: (WriteRow DefaultConfig (g :: row3) ++ rest) := by
        show (writeCell DefaultConfig f ++
          DefaultConfig.FieldDelim :: WriteRow DefaultConfig (g :: row3)) ++ rest = _
        simp [DefaultConfig]
      rw [hwr, readRowAux_term DefaultConfig _ acc f 44 _ hpc (by omega) (by omega)]
      have h44 : (44 : Nat) = DefaultConfig.FieldDelim := by
        simp [DefaultConfig]
      rw [if_pos h44]
      have hl2 : needsQuotes DefaultConfig ((g :: row3).getLastD []) = true ∨
          ((g :: row3).getLastD []).getLast? ≠ some 13 := by
        have : (f :: g :: row3).getLastD [] = (g :: row3).getLastD [] := by
          simp [List.getLastD, List.getLast?_cons_cons]
        rw [this] at hl
        exact hl
      rw [ih (List.cons_ne_nil g row3) hl2 rest (acc ++ [f])]
      simp

/-- Table-level round trip at the default configuration. -/
theorem readAllAux_writeAll (t : List (List (List Nat)))
    (h : ∀ row ∈ t, row ≠ [] ∧ (needsQuotes DefaultConfig (row.getLastD []) = true ∨
      (row.getLastD []).getLast? ≠ some 13)) :
    ∀ acc, readAllAux DefaultConfig (WriteAll DefaultConfig t) acc = (acc ++ t, none) := by
  induction t with
  | nil =>
    intro acc
    have hrr : ReadRow DefaultConfig [] = ([], some Err.eof, []) := by
      rw [ReadRow, readRowAux_err DefaultConfig [] [] [] 0 Err.eof [] (parseCell_nil _)]
      simp
    rw [WriteAll, readAllAux_err DefaultConfig [] acc [] Err.eof [] hrr]
    simp
  | cons r t2 ih =>
    intro acc
    have hr := h r (by simp)
    have hrr : ReadRow DefaultConfig (WriteRow DefaultConfig r ++ WriteAll DefaultConfig t2)
        = (r, none, WriteAll DefaultConfig t2) := by
      rw [ReadRow, readRowAux_writeRow r hr.1 hr.2 (WriteAll DefaultConfig t2) []]
      simp
    have hwa : WriteAll DefaultConfig (r :: t2)
        = WriteRow DefaultConfig r ++ WriteAll DefaultConfig t2 := rfl
    rw [hwa, readAllAux_ok DefaultConfig _ acc r _ hrr]
    rw [ih (fun row hrow => h row (by simp [hrow])) (acc ++ [r])]
    simp

theorem eatSpaces_replicate (c : Nat) (hc : c ≠ 32) :
    ∀ (k : Nat) (rest : List Nat),
      eatSpaces 32 (List.replicate k 32 ++ c :: rest) = (c, rest) := by
  intro k
  induction k with
  | zero =>
    intro rest
    simp only [List.replicate, List.nil_append]
    unfold eatSpaces
    rw [if_pos rfl]
    exact eatSpaces_no_space c rest hc
  | succ k ih =>
    intro rest
    simp only [List.replicate, List.cons_append]
    conv =>
      lhs
      unfold eatSpaces
    rw [if_pos rfl]
    exact ih rest

theorem parseQuoted_no_close (t : List Nat) :
    ∀ acc : List Nat, (∀ b ∈ t, b ≠ 34) →
      parseQuoted t acc = ([], 0, some Err.unexpectedEof, []) := by
  induction t with
  | nil =>
    intro acc _
    rfl
  | cons b rest ih =>
    intro acc ht
    have hb : b ≠ 34 := ht b (by simp)
    unfold parseQuoted
    rw [if_neg hb]
    exact ih (acc ++ [b]) (fun z hz => ht z (by simp [hz]))

theorem escapeQuotes_count (f : List Nat) :
    (escapeQuotes f).count 34 = 2 * f.count 34 := by
  induction f with
  | nil => rfl
  | cons b rest ih =>
    unfold escapeQuotes
    by_cases hb : b = 34
    · subst hb
      rw [if_pos rfl]
      simp [List.count_cons, List.count_append, ih]
      omega
    · rw [if_neg hb]
      simp [List.count_cons, List.count_append, ih, hb]

/-!
## Claim theorems

One theorem per claim of the specification review, with a witness for each
theorem that carries hypotheses and a counterexample for each corrected
claim.
-/

/-- C1 (amended): encoding a table with the default configuration via
`WriteAll` and decoding it back via `ReadAll` returns exactly the original
table, provided every row has at least one field and no row's last field both
ends in the byte `'\r'` and is left unquoted by the writer.  (As stated for
arbitrary tables the claim fails: see the counterexample, where the trailing
`'\r'` of an unquoted final field is eaten by the reader's CRLF handling.) -/
theorem claim_C1_roundtrip (t : List (List (List Nat)))
    (h : ∀ row ∈ t, row ≠ [] ∧ (needsQuotes DefaultConfig (row.getLastD []) = true ∨
      (row.getLastD []).getLast? ≠ some 13)) :
    ReadAll DefaultConfig (WriteAll DefaultConfig t) = (t, none) := by
  rw [ReadAll, readAllAux_writeAll t h []]
  simp

/-- Witness for C1: a concrete two-row table (with an empty field and a field
that the writer must quote) round-trips. -/
theorem claim_C1_roundtrip_witness :
    (∀ row ∈ [[[104, 105], []], [[34]]], row ≠ [] ∧
      (needsQuotes DefaultConfig (row.getLastD []) = true ∨
        (row.getLastD []).getLast? ≠ some 13)) ∧
    ReadAll DefaultConfig (WriteAll DefaultConfig [[[104, 105], []], [[34]]])
      = ([[[104, 105], []], [[34]]], none) := by
  have h : ∀ row ∈ [[[104, 105], []], [[34]]], row ≠ [] ∧
      (needsQuotes DefaultConfig (row.getLastD []) = true ∨
        (row.getLastD []).getLast? ≠ some 13) := by
    intro row hrow
    simp only [List.mem_cons, List.not_mem_nil, or_false] at hrow
    rcases hrow with rfl | rfl
    · exact ⟨by decide, Or.inr (by decide)⟩
    · exact ⟨by decide, Or.inr (by decide)⟩
  exact ⟨h, claim_C1_roundtrip _ h⟩

/-- Counterexample to C1 as stated: the single-row table whose only field is
`"a\r"` encodes to `a\r\n`, which decodes to the field `"a"` — the trailing
`'\r'` is lost even though `TrimSpaces` is off. -/
theorem claim_C1_counterexample :
    ReadAll DefaultConfig (WriteAll DefaultConfig [[[97, 13]]]) = ([[[97]]], none) ∧
    ([[[97]]] : List (List (List Nat))) ≠ [[[97, 13]]] := by
  constructor
  · have hw : WriteAll DefaultConfig [[[97, 13]]] = [97, 13, 10] := by
      simp [WriteAll, WriteRow, writeCell, needsQuotes, runeScan_cons, runeScan_nil,
        decodeRune1, b1lo, b1hi, escapeQuotes, DefaultConfig]
    have hrr : ReadRow DefaultConfig [97, 13, 10] = ([[97]], none, []) := by
      simp [ReadRow, readRowAux, parseCell, parseUnquoted, DefaultConfig]
    have hrr2 : ReadRow DefaultConfig [] = ([], some Err.eof, []) := by
      rw [ReadRow, readRowAux_err DefaultConfig [] [] [] 0 Err.eof [] (parseCell_nil _)]
      simp
    rw [hw, ReadAll, readAllAux_ok DefaultConfig _ [] [[97]] [] hrr,
      readAllAux_err DefaultConfig [] _ [] Err.eof [] hrr2]
    simp
  · decide

/-- C2 (amended): when the cell scanner consumes to true end-of-input and
reports the sentinel terminator (byte `0` with no error and nothing left),
`ReadRow` returns the collected row — which then has at least one field —
with a nil error, and the next call reports `io.EOF` with no row.  (The
claim's further assertion that end-of-input is *never* returned merged with a
row fails: see the counterexample, where input ending right after a delimiter
makes `ReadRow` return a row extended by an empty field together with
`io.EOF`.) -/
theorem claim_C2_sentinel (cfg : Config) (input : List Nat) (acc : List (List Nat))
    (c : List Nat) (h : parseCell cfg input = (c, 0, none, [])) :
    readRowAux cfg input acc = (acc ++ [c], none, []) ∧
    ReadRow cfg [] = ([], some Err.eof, []) := by
  constructor
  · exact readRowAux_sentinel cfg input acc c [] h
  · rw [ReadRow, readRowAux_err cfg [] [] [] 0 Err.eof [] (parseCell_nil _)]
    simp

/-- Witness for C2: input `a` (no trailing newline) ends in the sentinel;
the row `["a"]` is returned cleanly and the next call reports end-of-input. -/
theorem claim_C2_sentinel_witness :
    parseCell DefaultConfig [97] = ([97], 0, none, []) ∧
    (readRowAux DefaultConfig [97] [] = ([[97]], none, []) ∧
      ReadRow DefaultConfig [] = ([], some Err.eof, [])) := by
  have h : parseCell DefaultConfig [97] = ([97], 0, none, []) := by decide
  exact ⟨h, claim_C2_sentinel DefaultConfig [97] [] [97] h⟩

/-- Counterexample to C2 as stated: on input `a,` the first `ReadRow` call
returns the nonempty row `["a", ""]` *together with* the `io.EOF` error —
end-of-input is merged with a returned row. -/
theorem claim_C2_counterexample :
    ReadRow DefaultConfig [97, 44] = ([[97], []], some Err.eof, []) ∧
    ([[97], []] : List (List Nat)) ≠ [] := by
  constructor
  · simp [ReadRow, readRowAux, parseCell, parseUnquoted, DefaultConfig, parseCell_nil]
  · decide

/-- C3 (confirmed): with trimming off, an unquoted cell whose scan ends at a
`'\r'` immediately followed by `'\n'` drops exactly that one `'\r'` from the
returned text — even further `'\r'` bytes at the end of the payload `f` are
kept. -/
theorem claim_C3_crlf (cfg : Config) (f : List Nat) (rest : List Nat)
    (ht : cfg.TrimSpaces = false) (hd : cfg.FieldDelim ≠ 13)
    (hf : ∀ b ∈ f, b ≠ 10 ∧ b ≠ cfg.FieldDelim) (hq : f.head? ≠ some 34) :
    parseCell cfg (f ++ 13 :: 10 :: rest) = (f, 10, none, rest) := by
  match f with
  | [] =>
    simp only [List.nil_append]
    unfold parseCell
    rw [ht]
    simp only [Bool.false_eq_true, if_false]
    rw [if_neg (by omega : ¬(13 : Nat) = 34)]
    rw [show parseUnquoted cfg 13 (10 :: rest) [] 0 0
        = parseUnquoted cfg 13 ([] ++ 10 :: rest) [] 0 0 by simp]
    rw [parseUnquoted_run cfg ht [] 13 [] 0 0 10 rest (Or.inr rfl) (by omega) (by omega)
      (by simp)]
    simp [List.getLastD]
  | x :: f2 =>
    have hx := hf x (by simp)
    have hx34 : x ≠ 34 := by
      intro hcon
      exact hq (by rw [List.head?_cons, hcon])
    simp only [List.cons_append]
    unfold parseCell
    rw [ht]
    simp only [Bool.false_eq_true, if_false]
    rw [if_neg hx34]
    rw [show f2 ++ 13 :: 10 :: rest = (f2 ++ [13]) ++ 10 :: rest by simp]
    rw [parseUnquoted_run cfg ht (f2 ++ [13]) x [] 0 0 10 rest (Or.inr rfl) hx.1 hx.2 ?hff]
    case hff =>
      intro z hz
      rcases List.mem_append.mp hz with h | h
      · exact hf z (by simp [h])
      · simp only [List.mem_singleton] at h
        subst h
        exact ⟨by omega, fun hcon => hd hcon.symm⟩
    have hgl : (x :: (f2 ++ [13])).getLastD 0 = 13 := by
      have : x :: (f2 ++ [13]) = (x :: f2) ++ [13] := by simp
      rw [this]
      have h2 : ((x :: f2) ++ [13]).getLast? = some 13 := List.getLast?_concat _
      have h3 : ((x :: f2) ++ [13]).getLast? = some (((x :: f2) ++ [13]).getLastD 0) := rfl
      rw [h3] at h2
      exact (Option.some.injEq _ _ ▸ h2 : _ = 13)
    have hone : (if (x :: (f2 ++ [13])).getLastD 0 = 13 ∧ (10 : Nat) = 10 ∧ (0 : Nat) = 0
        then 1 else 0) = 1 := by
      rw [hgl]
      simp
    rw [hone]
    rw [show ([] ++ x :: (f2 ++ [13])) = (x :: f2) ++ [13] by simp]
    have hlen2 : ((x :: f2) ++ [13]).length - 1 = (x :: f2).length := by simp
    rw [hlen2, List.take_left]

/-- Witness for C3: the cell `a\r` followed by `\n` parses to `a` with the
newline as terminator, at the default (no-trim) configuration. -/
theorem claim_C3_crlf_witness :
    (DefaultConfig.TrimSpaces = false ∧ DefaultConfig.FieldDelim ≠ 13) ∧
    parseCell DefaultConfig [97, 13, 10] = ([97], 10, none, []) := by
  refine ⟨⟨rfl, by decide⟩, ?_⟩
  exact claim_C3_crlf DefaultConfig [97] [] rfl (by decide) (by decide) (by decide)

/-- C4 (amended): for every ASCII delimiter byte (below 128, which includes
the default `','`), the cell writer quotes a field exactly when it is
non-empty and starts or ends with a space byte, or contains a newline,
double-quote, horizontal-tab, or delimiter byte.  (For delimiter bytes at 128
and above the claim as stated fails, because the Go writer compares
UTF-8-decoded runes rather than bytes: see the counterexample.) -/
theorem claim_C4_needsQuotes (cfg : Config) (hd : cfg.FieldDelim < 128) (s : List Nat) :
    needsQuotes cfg s = true ↔
      ((s ≠ [] ∧ (s.head? = some 32 ∨ s.getLast? = some 32)) ∨
        ∃ b ∈ s, b = 10 ∨ b = 34 ∨ b = 9 ∨ b = cfg.FieldDelim) :=
  needsQuotes_iff cfg hd s

/-- Witness for C4: at the default configuration the tab-only field `"\t"`
is quoted, and the quoting condition holds of it. -/
theorem claim_C4_needsQuotes_witness :
    DefaultConfig.FieldDelim < 128 ∧
    (needsQuotes DefaultConfig [9] = true ↔
      (([9] : List Nat) ≠ [] ∧
          (([9] : List Nat).head? = some 32 ∨ ([9] : List Nat).getLast? = some 32)) ∨
        ∃ b ∈ ([9] : List Nat), b = 10 ∨ b = 34 ∨ b = 9 ∨ b = DefaultConfig.FieldDelim) :=
  ⟨by decide, claim_C4_needsQuotes DefaultConfig (by decide) [9]⟩

/-- Counterexample to C4 as stated: with delimiter byte `200`, the field
consisting of exactly the byte `200` contains the configured delimiter byte,
yet the writer does not quote it (the lone byte `200` is an invalid UTF-8
encoding, so the rune loop sees `0xFFFD`, not `200`). -/
theorem claim_C4_counterexample :
    needsQuotes { TrimSpaces := false, FieldDelim := 200 } [200] = false ∧
    (200 : Nat) ∈ ([200] : List Nat) ∧
    Config.FieldDelim { TrimSpaces := false, FieldDelim := 200 } = 200 := by
  refine ⟨?_, by decide, rfl⟩
  simp [needsQuotes, runeScan_cons, runeScan_nil, decodeRune1, b1lo, b1hi]

/-- C5 (confirmed): once the closing quote of a quoted cell is seen (with
scratch contents `acc`), the entire run of following space bytes is consumed
and discarded and the first byte after the run becomes the terminator; the
spaces never enter the field text.  `parseQuoted` does not consult the
configuration at all, so this holds regardless of `TrimSpaces`. -/
theorem claim_C5_quoted_trailing_spaces (acc : List Nat) (k c : Nat) (rest : List Nat)
    (hc : c ≠ 32) (h0 : k = 0 → c ≠ 34) :
    parseQuoted (34 :: (List.replicate k 32 ++ c :: rest)) acc = (acc, c, none, rest) := by
  match k with
  | 0 =>
    simp only [List.replicate, List.nil_append]
    unfold parseQuoted
    rw [if_pos rfl]
    simp only [if_neg (h0 rfl)]
    rw [eatSpaces_no_space c rest hc]
  | k + 1 =>
    simp only [List.replicate, List.cons_append]
    unfold parseQuoted
    rw [if_pos rfl]
    show (if (32 : Nat) = 34 then parseQuoted (List.replicate k 32 ++ c :: rest) (acc ++ [34])
        else
          let p := eatSpaces 32 (List.replicate k 32 ++ c :: rest)
          (acc, p.1, none, p.2)) = (acc, c, none, rest)
    rw [if_neg (by omega : ¬(32 : Nat) = 34)]
    simp only [eatSpaces_replicate c hc k rest]

/-- Witness for C5: `"…"` closed by two spaces and then a comma yields the
field text unchanged with the comma as terminator and the spaces gone. -/
theorem claim_C5_quoted_trailing_spaces_witness :
    ((44 : Nat) ≠ 32 ∧ ((2 : Nat) = 0 → (44 : Nat) ≠ 34)) ∧
    parseQuoted [34, 32, 32, 44, 98] [97] = ([97], 44, none, [98]) := by
  refine ⟨⟨by decide, fun h => absurd h (by decide)⟩, ?_⟩
  exact claim_C5_quoted_trailing_spaces [97] 2 44 [98] (by decide) (fun h => absurd h (by decide))

/-- C6 (confirmed): end-of-input inside a quoted cell with no closing quote
fails with `io.ErrUnexpectedEOF` — an error distinct from the clean `io.EOF`
signal — and the returned field text is empty.  This holds for every
configuration (leading-space trimming never discards the opening quote). -/
theorem claim_C6_unterminated (cfg : Config) (t : List Nat) (ht : ∀ b ∈ t, b ≠ 34) :
    parseCell cfg (34 :: t) = ([], 0, some Err.unexpectedEof, []) ∧
    Err.unexpectedEof ≠ Err.eof := by
  refine ⟨?_, by decide⟩
  unfold parseCell
  have hdrop : List.dropWhile (fun b => decide (b = 32)) (34 :: t) = 34 :: t := by
    rw [List.dropWhile_cons]
    simp
  split
  · rename_i heq
    split at heq <;> simp_all
  · rename_i b rest heq
    have hbt : (34 : Nat) :: t = b :: rest := by
      split at heq
      · rw [hdrop] at heq
        exact heq
      · exact heq
    injection hbt with hb hrest
    subst hb hrest
    rw [if_pos rfl]
    exact parseQuoted_no_close t [] ht

/-- Witness for C6: the test input `"Unterminated` (opening quote, no close)
at the default configuration. -/
theorem claim_C6_unterminated_witness :
    (∀ b ∈ [85, 110, 116, 101, 114, 109, 105, 110, 97, 116, 101, 100], b ≠ 34) ∧
    (parseCell DefaultConfig
        (34 :: [85, 110, 116, 101, 114, 109, 105, 110, 97, 116, 101, 100])
      = ([], 0, some Err.unexpectedEof, []) ∧
      Err.unexpectedEof ≠ Err.eof) := by
  have h : ∀ b ∈ [85, 110, 116, 101, 114, 109, 105, 110, 97, 116, 101, 100],
      b ≠ (34 : Nat) := by decide
  exact ⟨h, claim_C6_unterminated DefaultConfig _ h⟩

/-- C7 (amended): when a cell's terminator is `'\r'`, `ReadRow` consumes the
following byte and dispatches on it exactly as on an ordinary terminator: the
field delimiter continues the row, `'\n'` completes it, any *other* byte is
the fatal `expected`-error, and end-of-input at that point is returned as the
read error with a nil row.  (The claim that only `'\n'` lets the parse
proceed fails: see the counterexample with a delimiter after the `'\r'`.) -/
theorem claim_C7_cr_dispatch (cfg : Config) (hd10 : cfg.FieldDelim ≠ 10) :
    (∀ (input : List Nat) (acc : List (List Nat)) (c : List Nat) (b2 : Nat)
        (rest2 : List Nat), parseCell cfg input = (c, 13, none, b2 :: rest2) →
        b2 ≠ cfg.FieldDelim → b2 ≠ 10 →
        readRowAux cfg input acc = ([], some (Err.expected b2), rest2)) ∧
    (∀ (input : List Nat) (acc : List (List Nat)) (c : List Nat) (rest2 : List Nat),
        parseCell cfg input = (c, 13, none, 10 :: rest2) →
        readRowAux cfg input acc = (acc ++ [c], none, rest2)) ∧
    (∀ (input : List Nat) (acc : List (List Nat)) (c : List Nat) (rest2 : List Nat),
        parseCell cfg input = (c, 13, none, cfg.FieldDelim :: rest2) →
        readRowAux cfg input acc = readRowAux cfg rest2 (acc ++ [c])) ∧
    (∀ (input : List Nat) (acc : List (List Nat)) (c : List Nat),
        parseCell cfg input = (c, 13, none, []) →
        readRowAux cfg input acc = ([], some Err.eof, [])) := by
  refine ⟨?_, ?_, ?_, ?_⟩
  · intro input acc c b2 rest2 hpc hbD hb10
    rw [readRowAux_cr_cons cfg input acc c b2 rest2 hpc, if_neg hbD, if_neg hb10]
  · intro input acc c rest2 hpc
    rw [readRowAux_cr_cons cfg input acc c 10 rest2 hpc, if_neg (fun h => hd10 h.symm),
      if_pos rfl]
  · intro input acc c rest2 hpc
    rw [readRowAux_cr_cons cfg input acc c cfg.FieldDelim rest2 hpc, if_pos rfl]
  · intro input acc c hpc
    exact readRowAux_cr_nil cfg input acc c hpc

/-- Witness for C7: the quoted cell `"a"` terminated by `'\r'` then `'\n'`
completes the row. -/
theorem claim_C7_cr_dispatch_witness :
    DefaultConfig.FieldDelim ≠ 10 ∧
    parseCell DefaultConfig [34, 97, 34, 13, 10] = ([97], 13, none, [10]) ∧
    readRowAux DefaultConfig [34, 97, 34, 13, 10] [] = ([[97]], none, []) := by
  have hpc : parseCell DefaultConfig [34, 97, 34, 13, 10] = ([97], 13, none, [10]) := by
    decide
  exact ⟨by decide, hpc,
    (claim_C7_cr_dispatch DefaultConfig (by decide)).2.1 [34, 97, 34, 13, 10] [] [97] [] hpc⟩

/-- Counterexample to C7 as stated: in `"a"\r,b\n` the byte after the `'\r'`
terminator is the delimiter `','`, not `'\n'`, yet `ReadRow` proceeds and
returns the row `["a", "b"]` with no error. -/
theorem claim_C7_counterexample :
    ReadRow DefaultConfig [34, 97, 34, 13, 44, 98, 10] = ([[97], [98]], none, []) ∧
    (44 : Nat) ≠ 10 := by
  refine ⟨?_, by decide⟩
  simp [ReadRow, readRowAux, parseCell, parseUnquoted, parseQuoted, eatSpaces, DefaultConfig]

/-- C8 (amended): a field containing `n` double-quote bytes that the writer
decides to quote is emitted with exactly `2 * n + 2` double-quote bytes: each
content quote doubled, plus the two enclosing quotes.  (The claim's count of
exactly `2 * n` fails once the enclosing quotes are counted: see the
counterexample.) -/
theorem claim_C8_quote_doubling (cfg : Config) (f : List Nat)
    (hq : needsQuotes cfg f = true) :
    (writeCell cfg f).count 34 = 2 * f.count 34 + 2 := by
  rw [writeCell, if_pos hq]
  simp [List.count_cons, List.count_append, escapeQuotes_count]

/-- Witness for C8: the field `"a"` (one quote byte and a letter). -/
theorem claim_C8_quote_doubling_witness :
    needsQuotes DefaultConfig [34, 97] = true ∧
    (writeCell DefaultConfig [34, 97]).count 34 = 2 * List.count 34 [34, 97] + 2 := by
  have hq : needsQuotes DefaultConfig [34, 97] = true := by
    simp [needsQuotes, runeScan_cons, runeScan_nil, decodeRune1, b1lo, b1hi, DefaultConfig]
  exact ⟨hq, claim_C8_quote_doubling DefaultConfig [34, 97] hq⟩

/-- Counterexample to C8 as stated: the field `"` (one double-quote byte) is
quoted and its emitted output `""""` contains 4 double-quote bytes, not
`2 * 1 = 2`. -/
theorem claim_C8_counterexample :
    needsQuotes DefaultConfig [34] = true ∧
    writeCell DefaultConfig [34] = [34, 34, 34, 34] ∧
    List.count 34 [34] = 1 ∧
    (List.count (34 : Nat) [34, 34, 34, 34] = 4 ∧ (4 : Nat) ≠ 2 * 1) := by
  have hq : needsQuotes DefaultConfig [34] = true := by
    simp [needsQuotes, runeScan_cons, runeScan_nil, decodeRune1, b1lo, b1hi, DefaultConfig]
  refine ⟨hq, ?_, by decide, by decide, by decide⟩
  rw [writeCell, if_pos hq]
  rfl

/-- C9 (confirmed): decoding the empty input with `ReadAll` yields the empty
table and a nil error. -/
theorem claim_C9_empty_input :
    ReadAll DefaultConfig [] = ([], none) := by
  have hrr : ReadRow DefaultConfig [] = ([], some Err.eof, []) := by
    rw [ReadRow, readRowAux_err DefaultConfig [] [] [] 0 Err.eof [] (parseCell_nil _)]
    simp
  rw [ReadAll, readAllAux_err DefaultConfig [] [] [] Err.eof [] hrr]
  simp

/-- C10 (amended): for every ASCII delimiter byte (below 128, which includes
the default `','`), a field that does not start or end with a space byte and
contains no newline, double-quote, tab, or delimiter byte is emitted verbatim
without quotes — in particular `'\r'` bytes never cause quoting.  (For
delimiter bytes at 128 and above the claim as stated fails because the writer
scans UTF-8 runes: see the counterexample.) -/
theorem claim_C10_cr_never_quotes (cfg : Config) (hd : cfg.FieldDelim < 128)
    (s : List Nat) (h1 : s.head? ≠ some 32) (h2 : s.getLast? ≠ some 32)
    (h3 : ∀ b ∈ s, b ≠ 10 ∧ b ≠ 34 ∧ b ≠ 9 ∧ b ≠ cfg.FieldDelim) :
    writeCell cfg s = s := by
  rw [writeCell, if_neg]
  intro hq
  rcases (needsQuotes_iff cfg hd s).mp hq with ⟨-, h | h⟩ | ⟨b, hb, hor⟩
  · exact h1 h
  · exact h2 h
  · have := h3 b hb
    tauto

/-- Witness for C10: the field `a\rb` contains a `'\r'` byte and is written
verbatim, unquoted, at the default configuration. -/
theorem claim_C10_cr_never_quotes_witness :
    (DefaultConfig.FieldDelim < 128 ∧ (13 : Nat) ∈ ([97, 13, 98] : List Nat)) ∧
    writeCell DefaultConfig [97, 13, 98] = [97, 13, 98] := by
  refine ⟨⟨by decide, by decide⟩, ?_⟩
  exact claim_C10_cr_never_quotes DefaultConfig (by decide) [97, 13, 98]
    (by decide) (by decide) (by decide)

/-- Counterexample to C10 as stated: with delimiter byte `200`, the field
`[195, 136, 13]` starts and ends with non-space bytes, contains a `'\r'` and
no newline, quote, tab, or delimiter *byte*, yet the writer quotes it: the
bytes `195, 136` decode to the rune `200`, which equals the delimiter. -/
theorem claim_C10_counterexample :
    writeCell { TrimSpaces := false, FieldDelim := 200 } [195, 136, 13]
        = [34, 195, 136, 13, 34] ∧
    ((13 : Nat) ∈ ([195, 136, 13] : List Nat) ∧
      (∀ b ∈ ([195, 136, 13] : List Nat), b ≠ 10 ∧ b ≠ 34 ∧ b ≠ 9 ∧ b ≠ 200) ∧
      ([34, 195, 136, 13, 34] : List Nat) ≠ [195, 136, 13]) := by
  refine ⟨?_, by decide, by decide, by decide⟩
  simp [writeCell, needsQuotes, runeScan_cons, runeScan_nil, decodeRune1, b1lo, b1hi,
    escapeQuotes]
